import Mathlib

/-!
Verification of the `Word` lexer sub-state of the `hush` tokenizer
(`src/lexer/automata/word.rs`).

Bytes are modelled as `Nat` (values below 256 in practice; the predicates are
arithmetic range checks, faithful to Rust's `u8::is_ascii_*`).  The fallible
`expect` on the identifier path is modelled by returning `Option`: `none`
stands for the panic.  The collaborators that live outside `src/`
(`Cursor`, `SymbolInterner`, `Token`, `TokenKind`, `Transition`, `State`,
`SourcePos`, the reserved-word enums) are modelled from the spec, as noted on
each definition.
-/

/-- Modelled from the spec (§3): `SourcePos` identifies where a token begins,
by line/column.  Immutable value. -/
structure SourcePos where
  line : Nat
  column : Nat
deriving DecidableEq, Repr

/-- Modelled from the spec (§3): opaque, copyable, comparable handle into the
interner.  Two handles are equal iff the identifier text is byte-equal. -/
abbrev SymbolHandle := Nat

/-- Modelled from the spec (§4.5): the interner state is the sequence of
distinct texts interned so far; a handle is an index into it. -/
abbrev SymbolInterner := List String

/-- Position of `text` in the interner table, if already interned. -/
def lookupHandle : List String → String → Option Nat
  | [], _ => none
  | t :: ts, text => if t = text then some 0 else (lookupHandle ts text).map (· + 1)

/-- Modelled from the spec (§4.5): `get_or_intern(text)` returns an existing
handle if `text` was interned before (byte-for-byte equal), otherwise
allocates a new handle and records the mapping. -/
def SymbolInterner.get_or_intern (interner : SymbolInterner) (text : String) :
    SymbolHandle × SymbolInterner :=
  match lookupHandle interner text with
  | some h => (h, interner)
  | none => (interner.length, interner ++ [text])

/-- Modelled from the spec (§6): the closed keyword enumeration. -/
inductive Keyword where
  | Let | If | Then | Else | End | For | In | Do | While
  | Function | Return | Break | Self_
deriving DecidableEq, Repr

/-- Modelled from the spec (§6): the closed literal-word enumeration. -/
inductive Literal where
  | Nil | True | False
deriving DecidableEq, Repr

/-- Modelled from the spec (§6): the closed word-operator enumeration. -/
inductive Operator where
  | Not | And | Or
deriving DecidableEq, Repr

/-- Modelled from the spec (§3): the token kinds produced by the `Word`
sub-state (kinds from other sub-states are out of scope). -/
inductive TokenKind where
  | Keyword : Keyword → TokenKind
  | Literal : Literal → TokenKind
  | Operator : Operator → TokenKind
  | Identifier : SymbolHandle → TokenKind
deriving DecidableEq, Repr

/-- Modelled from the spec (§3): a token is a kind plus the position where it
began.  The field holding the kind is named `token` as in the source
(`Token { token, pos }`). -/
structure Token where
  token : TokenKind
  pos : SourcePos
deriving DecidableEq, Repr

/-- The `Word` sub-state (source, `word.rs` lines 17-21): start offset of the
run and the source position captured at entry. -/
structure Word where
  start_offset : Nat
  pos : SourcePos
deriving DecidableEq, Repr

/-- Modelled from the spec (§2): the automaton state; only `Root` and `Word`
matter here.  `State.word` embeds the sub-state, as the source's
`impl From<Word> for State` does. -/
inductive State where
  | root : State
  | word : Word → State
deriving DecidableEq, Repr

/-- Modelled from the spec (§4.2): a transition either consumes the current
byte and moves to a state (`step`), or leaves the byte unconsumed, pops to an
outer state and emits a finished token (`resume_produce`). -/
inductive Transition where
  | step : State → Transition
  | resume_produce : State → Token → Transition
deriving DecidableEq, Repr

/-- Modelled from the spec (§4.1): a cursor is a read-only view of the buffer
with a current offset and a current logical position. -/
structure Cursor where
  buffer : List Nat
  offset : Nat
  curPos : SourcePos
deriving DecidableEq, Repr

/-- Modelled from the spec (§4.1): `slice()` exposes the whole underlying
buffer, indexable by offsets captured earlier. -/
def Cursor.slice (c : Cursor) : List Nat := c.buffer

/-- Modelled from the spec (§4.1): `pos()` is the current logical position. -/
def Cursor.pos (c : Cursor) : SourcePos := c.curPos

/-- Modelled from the spec (§4.1): `peek()` is the byte at the current offset,
`none` at end-of-input. -/
def Cursor.peek (c : Cursor) : Option Nat := c.buffer[c.offset]?

/-- Modelled from Rust std `u8::is_ascii_alphabetic`:
`b'A'..=b'Z' | b'a'..=b'z'`. -/
def is_ascii_alphabetic (b : Nat) : Bool :=
  decide ((65 ≤ b ∧ b ≤ 90) ∨ (97 ≤ b ∧ b ≤ 122))

/-- Modelled from Rust std `u8::is_ascii_digit`: `b'0'..=b'9'`. -/
def is_ascii_digit (b : Nat) : Bool :=
  decide (48 ≤ b ∧ b ≤ 57)

/-- Modelled from Rust std `u8::is_ascii_alphanumeric`. -/
def is_ascii_alphanumeric (b : Nat) : Bool :=
  is_ascii_alphabetic b || is_ascii_digit b

/-- `IsWord::is_word_start` for `u8` (source, lines 103-105): ASCII
alphabetic or `_` (byte 95). -/
def is_word_start (b : Nat) : Bool :=
  is_ascii_alphabetic b || b == 95

/-- `IsWord::is_word` for `u8` (source, lines 107-109): ASCII alphanumeric
or `_` (byte 95). -/
def is_word (b : Nat) : Bool :=
  is_ascii_alphanumeric b || b == 95

/-- The bytes of an ASCII string literal, as `Nat`s: renders Rust byte-string
literals such as `b"let"`. -/
def strBytes (s : String) : List Nat := s.data.map Char.toNat

/-- Is a continuation byte `0x80..=0xBF`. -/
def utf8Cont (b : Nat) : Bool := decide (128 ≤ b ∧ b < 192)

/-- Admissible second byte of a three-byte sequence (excludes overlong
encodings for leader `0xE0` and surrogates for leader `0xED`). -/
def utf8Cont2 (b0 b1 : Nat) : Bool :=
  if b0 = 224 then decide (160 ≤ b1 ∧ b1 < 192)
  else if b0 = 237 then decide (128 ≤ b1 ∧ b1 < 160)
  else utf8Cont b1

/-- Admissible second byte of a four-byte sequence (excludes overlong
encodings for leader `0xF0` and values beyond `U+10FFFF` for `0xF4`). -/
def utf8Cont3 (b0 b1 : Nat) : Bool :=
  if b0 = 240 then decide (144 ≤ b1 ∧ b1 < 192)
  else if b0 = 244 then decide (128 ≤ b1 ∧ b1 < 144)
  else utf8Cont b1

/-- Decode one UTF-8 scalar whose leading byte is `b0` and whose remaining
input is `rest`: the scalar and the number of continuation bytes consumed
from `rest`, or `none` if `b0` does not start a valid sequence here. -/
def utf8DecodeOne (b0 : Nat) (rest : List Nat) : Option (Char × Nat) :=
  if b0 < 128 then
    some (Char.ofNat b0, 0)
  else if 194 ≤ b0 ∧ b0 ≤ 223 then
    match rest with
    | b1 :: _ =>
      if utf8Cont b1 then
        some (Char.ofNat ((b0 - 192) * 64 + (b1 - 128)), 1)
      else none
    | [] => none
  else if 224 ≤ b0 ∧ b0 ≤ 239 then
    match rest with
    | b1 :: b2 :: _ =>
      if utf8Cont2 b0 b1 && utf8Cont b2 then
        some (Char.ofNat ((b0 - 224) * 4096 + (b1 - 128) * 64 + (b2 - 128)), 2)
      else none
    | _ => none
  else if 240 ≤ b0 ∧ b0 ≤ 244 then
    match rest with
    | b1 :: b2 :: b3 :: _ =>
      if utf8Cont3 b0 b1 && utf8Cont b2 && utf8Cont b3 then
        some (Char.ofNat ((b0 - 240) * 262144 + (b1 - 128) * 4096
          + (b2 - 128) * 64 + (b3 - 128)), 3)
      else none
    | _ => none
  else none

/-- Fuel-bounded UTF-8 decoding loop: decodes one scalar per step.  The fuel
only bounds the recursion depth; since every scalar consumes at least one
byte, fuel equal to the input length is always enough. -/
def utf8DecodeFuel : Nat → List Nat → Option (List Char)
  | _, [] => some []
  | 0, _ :: _ => none
  | fuel + 1, b0 :: rest =>
    match utf8DecodeOne b0 rest with
    | some (c, k) => (utf8DecodeFuel fuel (rest.drop k)).map (fun cs => c :: cs)
    | none => none

/-- Modelled from Rust std `std::str::from_utf8`: decode a byte sequence as
UTF-8, `none` exactly when the bytes are not valid UTF-8. -/
def utf8Decode? (bs : List Nat) : Option (List Char) :=
  utf8DecodeFuel bs.length bs

/-- `Word::to_token` (source, lines 48-84): exact byte match against the
reserved words, in source order; otherwise decode as text, intern, and wrap
as an identifier.  `none` models the `expect` panic on invalid UTF-8. -/
def Word.to_token (word : List Nat) (interner : SymbolInterner) :
    Option (TokenKind × SymbolInterner) :=
  if word = strBytes "let" then some (TokenKind.Keyword Keyword.Let, interner)
  else if word = strBytes "if" then some (TokenKind.Keyword Keyword.If, interner)
  else if word = strBytes "then" then some (TokenKind.Keyword Keyword.Then, interner)
  else if word = strBytes "else" then some (TokenKind.Keyword Keyword.Else, interner)
  else if word = strBytes "end" then some (TokenKind.Keyword Keyword.End, interner)
  else if word = strBytes "for" then some (TokenKind.Keyword Keyword.For, interner)
  else if word = strBytes "in" then some (TokenKind.Keyword Keyword.In, interner)
  else if word = strBytes "do" then some (TokenKind.Keyword Keyword.Do, interner)
  else if word = strBytes "while" then some (TokenKind.Keyword Keyword.While, interner)
  else if word = strBytes "function" then some (TokenKind.Keyword Keyword.Function, interner)
  else if word = strBytes "return" then some (TokenKind.Keyword Keyword.Return, interner)
  else if word = strBytes "break" then some (TokenKind.Keyword Keyword.Break, interner)
  else if word = strBytes "self" then some (TokenKind.Keyword Keyword.Self_, interner)
  else if word = strBytes "nil" then some (TokenKind.Literal Literal.Nil, interner)
  else if word = strBytes "true" then some (TokenKind.Literal Literal.True, interner)
  else if word = strBytes "false" then some (TokenKind.Literal Literal.False, interner)
  else if word = strBytes "not" then some (TokenKind.Operator Operator.Not, interner)
  else if word = strBytes "and" then some (TokenKind.Operator Operator.And, interner)
  else if word = strBytes "or" then some (TokenKind.Operator Operator.Or, interner)
  else
    match utf8Decode? word with
    | some chars =>
      let p := SymbolInterner.get_or_intern interner (String.mk chars)
      some (TokenKind.Identifier p.1, p.2)
    | none => none

/-- `Word::at` (source, lines 25-27): capture the cursor's offset and
position at entry into the sub-state. -/
def Word.at' (cursor : Cursor) : Word :=
  { start_offset := cursor.offset, pos := cursor.pos }

/-- The accumulated slice `cursor.slice()[self.start_offset .. cursor.offset()]`. -/
def wordSlice (self : Word) (cursor : Cursor) : List Nat :=
  (cursor.slice.take cursor.offset).drop self.start_offset

/-- `Word::visit` (source, lines 30-45): on a word-continuation byte, step
(stay in this sub-state); otherwise classify the accumulated slice and resume
to `Root`, producing the token.  `none` models the `expect` panic inside
`to_token`. -/
def Word.visit (self : Word) (cursor : Cursor) (interner : SymbolInterner) :
    Option (Transition × SymbolInterner) :=
  match cursor.peek with
  | some c =>
    if is_word c then
      some (Transition.step (State.word self), interner)
    else
      match Word.to_token (wordSlice self cursor) interner with
      | some (token, interner') =>
        some (Transition.resume_produce State.root { token := token, pos := self.pos }, interner')
      | none => none
  | none =>
    match Word.to_token (wordSlice self cursor) interner with
    | some (token, interner') =>
      some (Transition.resume_produce State.root { token := token, pos := self.pos }, interner')
    | none => none

/-- The keyword table, in source order (source, lines 51-63). -/
def keywordWords : List (List Nat) :=
  [strBytes "let", strBytes "if", strBytes "then", strBytes "else",
   strBytes "end", strBytes "for", strBytes "in", strBytes "do",
   strBytes "while", strBytes "function", strBytes "return",
   strBytes "break", strBytes "self"]

/-- The literal table, in source order (source, lines 66-68). -/
def literalWords : List (List Nat) :=
  [strBytes "nil", strBytes "true", strBytes "false"]

/-- The word-operator table, in source order (source, lines 71-73). -/
def operatorWords : List (List Nat) :=
  [strBytes "not", strBytes "and", strBytes "or"]

/-- All nineteen reserved words. -/
def reservedWords : List (List Nat) :=
  keywordWords ++ literalWords ++ operatorWords

/-- The identifier shape `[A-Za-z_][A-Za-z0-9_]*` (spec §6): a word-start
byte followed by word-continuation bytes. -/
def identShape : List Nat → Bool
  | [] => false
  | b :: bs => is_word_start b && bs.all is_word

/-- The text of an all-ASCII byte slice, as UTF-8 decoding yields it. -/
def wordText (w : List Nat) : String := String.mk (w.map Char.ofNat)

/-! ## Helper lemmas -/

theorem is_word_lt_128 (b : Nat) (h : is_word b = true) : b < 128 := by
  unfold is_word is_ascii_alphanumeric is_ascii_alphabetic is_ascii_digit at h
  simp only [Bool.or_eq_true, decide_eq_true_eq, beq_iff_eq] at h
  omega

theorem utf8DecodeOne_ascii (b : Nat) (rest : List Nat) (hb : b < 128) :
    utf8DecodeOne b rest = some (Char.ofNat b, 0) := by
  unfold utf8DecodeOne
  rw [if_pos hb]

theorem utf8DecodeFuel_ascii (fuel : Nat) (bs : List Nat)
    (hf : bs.length ≤ fuel) (h : ∀ b ∈ bs, b < 128) :
    utf8DecodeFuel fuel bs = some (bs.map Char.ofNat) := by
  induction fuel generalizing bs with
  | zero =>
    cases bs with
    | nil => rfl
    | cons b rest => simp at hf
  | succ n ih =>
    cases bs with
    | nil => rfl
    | cons b rest =>
      have hb : b < 128 := h b (by simp)
      rw [utf8DecodeFuel, utf8DecodeOne_ascii b rest hb]
      have hrest : utf8DecodeFuel n rest = some (rest.map Char.ofNat) := by
        refine ih rest ?_ (fun x hx => h x (List.mem_cons_of_mem b hx))
        simp at hf
        omega
      simp [hrest]

theorem utf8Decode_ascii (bs : List Nat) (h : ∀ b ∈ bs, b < 128) :
    utf8Decode? bs = some (bs.map Char.ofNat) :=
  utf8DecodeFuel_ascii bs.length bs (Nat.le_refl _) h

theorem lookupHandle_append_self (i : List String) (s : String)
    (h : lookupHandle i s = none) :
    lookupHandle (i ++ [s]) s = some i.length := by
  induction i with
  | nil => simp [lookupHandle]
  | cons t ts ih =>
    rw [lookupHandle] at h
    by_cases ht : t = s
    · simp [ht] at h
    · simp only [List.cons_append, lookupHandle, if_neg ht] at h ⊢
      rcases hts : lookupHandle ts s with _ | k
      · simp [ih hts, List.length_cons]
      · simp [hts] at h

theorem get_or_intern_stable (i : SymbolInterner) (s : String) :
    SymbolInterner.get_or_intern (SymbolInterner.get_or_intern i s).2 s =
      SymbolInterner.get_or_intern i s := by
  unfold SymbolInterner.get_or_intern
  rcases hl : lookupHandle i s with _ | k
  · simp [lookupHandle_append_self i s hl]
  · simp [hl]

/-! ## Claim C6 -/

/-- Claim C6: for every byte `b`, `is_word_start b` holds iff `b` is ASCII
alphabetic (`A`-`Z`, `a`-`z`) or `_` (95), and `is_word b` holds iff `b` is
ASCII alphanumeric or `_`. -/
theorem is_word_predicates_byte_ranges (b : Nat) (hb : b < 256) :
    (is_word_start b = true ↔
      ((65 ≤ b ∧ b ≤ 90) ∨ (97 ≤ b ∧ b ≤ 122) ∨ b = 95))
  ∧ (is_word b = true ↔
      ((65 ≤ b ∧ b ≤ 90) ∨ (97 ≤ b ∧ b ≤ 122) ∨ (48 ≤ b ∧ b ≤ 57) ∨ b = 95)) := by
  simp only [is_word_start, is_word, is_ascii_alphanumeric, is_ascii_alphabetic,
    is_ascii_digit, Bool.or_eq_true, decide_eq_true_eq, beq_iff_eq]
  omega

theorem is_word_predicates_byte_ranges_witness :
    is_word_start 95 = true ∧ is_word 48 = true :=
  ⟨((is_word_predicates_byte_ranges 95 (by decide)).1).mpr (by decide),
   ((is_word_predicates_byte_ranges 48 (by decide)).2).mpr (by decide)⟩

/-! ## Claim C7 -/

/-- Claim C7: the word-start predicate is strictly stricter than the
word-continuation predicate: `is_word_start` implies `is_word`, and every
ASCII digit satisfies `is_word` but not `is_word_start`. -/
theorem word_start_stricter_than_word (b : Nat) :
    (is_word_start b = true → is_word b = true)
  ∧ (48 ≤ b ∧ b ≤ 57 → is_word b = true ∧ is_word_start b = false) := by
  simp only [is_word_start, is_word, is_ascii_alphanumeric, is_ascii_alphabetic,
    is_ascii_digit, Bool.or_eq_true, Bool.or_eq_false_iff, decide_eq_true_eq,
    decide_eq_false_iff_not, beq_iff_eq, beq_eq_false_iff_ne, ne_eq]
  omega

theorem word_start_stricter_than_word_witness :
    (is_word_start 97 = true → is_word 97 = true)
  ∧ (is_word 53 = true ∧ is_word_start 53 = false) :=
  ⟨(word_start_stricter_than_word 97).1,
   (word_start_stricter_than_word 53).2 (by decide)⟩

/-! ## Claim C1 -/

/-- Claim C1: every reserved word is classified by `Word::to_token` exactly
as the tables give: the thirteen keywords yield `TokenKind::Keyword` with the
matching `Keyword` variant, the three literal words yield `TokenKind::Literal`
with the matching `Literal` variant, and the three word-operators yield
`TokenKind::Operator` with the matching `Operator` variant (the interner is
untouched). -/
theorem to_token_reserved_classification (interner : SymbolInterner) :
    Word.to_token (strBytes "let") interner = some (TokenKind.Keyword Keyword.Let, interner)
  ∧ Word.to_token (strBytes "if") interner = some (TokenKind.Keyword Keyword.If, interner)
  ∧ Word.to_token (strBytes "then") interner = some (TokenKind.Keyword Keyword.Then, interner)
  ∧ Word.to_token (strBytes "else") interner = some (TokenKind.Keyword Keyword.Else, interner)
  ∧ Word.to_token (strBytes "end") interner = some (TokenKind.Keyword Keyword.End, interner)
  ∧ Word.to_token (strBytes "for") interner = some (TokenKind.Keyword Keyword.For, interner)
  ∧ Word.to_token (strBytes "in") interner = some (TokenKind.Keyword Keyword.In, interner)
  ∧ Word.to_token (strBytes "do") interner = some (TokenKind.Keyword Keyword.Do, interner)
  ∧ Word.to_token (strBytes "while") interner = some (TokenKind.Keyword Keyword.While, interner)
  ∧ Word.to_token (strBytes "function") interner = some (TokenKind.Keyword Keyword.Function, interner)
  ∧ Word.to_token (strBytes "return") interner = some (TokenKind.Keyword Keyword.Return, interner)
  ∧ Word.to_token (strBytes "break") interner = some (TokenKind.Keyword Keyword.Break, interner)
  ∧ Word.to_token (strBytes "self") interner = some (TokenKind.Keyword Keyword.Self_, interner)
  ∧ Word.to_token (strBytes "nil") interner = some (TokenKind.Literal Literal.Nil, interner)
  ∧ Word.to_token (strBytes "true") interner = some (TokenKind.Literal Literal.True, interner)
  ∧ Word.to_token (strBytes "false") interner = some (TokenKind.Literal Literal.False, interner)
  ∧ Word.to_token (strBytes "not") interner = some (TokenKind.Operator Operator.Not, interner)
  ∧ Word.to_token (strBytes "and") interner = some (TokenKind.Operator Operator.And, interner)
  ∧ Word.to_token (strBytes "or") interner = some (TokenKind.Operator Operator.Or, interner) :=
  ⟨rfl, rfl, rfl, rfl, rfl, rfl, rfl, rfl, rfl, rfl,
   rfl, rfl, rfl, rfl, rfl, rfl, rfl, rfl, rfl⟩

/-! ## Claim C10 -/

/-- Claim C10: on every reserved word (keyword, literal or word-operator),
`Word::to_token` returns with the interner state unchanged — only the
identifier path interns. -/
theorem to_token_reserved_interner_frame (w : List Nat) (interner : SymbolInterner)
    (h : w ∈ reservedWords) :
    ∃ tk, Word.to_token w interner = some (tk, interner) := by
  simp only [reservedWords, keywordWords, literalWords, operatorWords,
    List.mem_append, List.mem_cons, List.not_mem_nil, or_false] at h
  rcases h with ((rfl | rfl | rfl | rfl | rfl | rfl | rfl | rfl | rfl | rfl | rfl | rfl | rfl) |
    rfl | rfl | rfl) | rfl | rfl | rfl <;> exact ⟨_, rfl⟩

theorem to_token_reserved_interner_frame_witness :
    ∃ tk, Word.to_token (strBytes "while") ["x"] = some (tk, ["x"]) :=
  to_token_reserved_interner_frame (strBytes "while") ["x"] (by decide)


/-! ## Shared classification lemmas -/

theorem to_token_reserved_cases (w : List Nat) (h : w ∈ reservedWords) :
    ∃ tk, ∀ interner : SymbolInterner, Word.to_token w interner = some (tk, interner) := by
  simp only [reservedWords, keywordWords, literalWords, operatorWords,
    List.mem_append, List.mem_cons, List.not_mem_nil, or_false] at h
  rcases h with ((rfl | rfl | rfl | rfl | rfl | rfl | rfl | rfl | rfl | rfl | rfl | rfl | rfl) |
    rfl | rfl | rfl) | rfl | rfl | rfl <;> exact ⟨_, fun interner => rfl⟩

theorem to_token_not_reserved (w : List Nat) (interner : SymbolInterner)
    (hres : w ∉ reservedWords) :
    Word.to_token w interner =
      match utf8Decode? w with
      | some chars =>
        some (TokenKind.Identifier
                (SymbolInterner.get_or_intern interner (String.mk chars)).1,
              (SymbolInterner.get_or_intern interner (String.mk chars)).2)
      | none => none := by
  simp only [reservedWords, keywordWords, literalWords, operatorWords,
    List.mem_append, List.mem_cons, List.not_mem_nil, or_false, not_or] at hres
  obtain ⟨⟨⟨h1, h2, h3, h4, h5, h6, h7, h8, h9, h10, h11, h12, h13⟩,
    h14, h15, h16⟩, h17, h18, h19⟩ := hres
  unfold Word.to_token
  rw [if_neg h1, if_neg h2, if_neg h3, if_neg h4, if_neg h5, if_neg h6, if_neg h7,
    if_neg h8, if_neg h9, if_neg h10, if_neg h11, if_neg h12, if_neg h13, if_neg h14,
    if_neg h15, if_neg h16, if_neg h17, if_neg h18, if_neg h19]

theorem identShape_ascii (w : List Nat) (hshape : identShape w = true) :
    ∀ b ∈ w, b < 128 := by
  rcases w with _ | ⟨b, bs⟩
  · simp [identShape] at hshape
  · simp only [identShape, Bool.and_eq_true, List.all_eq_true] at hshape
    intro x hx
    rcases List.mem_cons.mp hx with rfl | hx2
    · have h1 := hshape.1
      simp only [is_word_start, is_ascii_alphabetic, Bool.or_eq_true,
        decide_eq_true_eq, beq_iff_eq] at h1
      omega
    · exact is_word_lt_128 x (by simpa using hshape.2 x hx2)

/-! ## Claim C3 -/

/-- Claim C3: every ASCII byte slice of the shape `[A-Za-z_][A-Za-z0-9_]*`
that is not one of the nineteen reserved words is classified by
`Word::to_token` as `TokenKind::Identifier`, whose handle is the result of
`get_or_intern` on the slice's text (and the interner is updated
accordingly).  In particular whole runs such as `and1` and case variants
such as `End`, `IF`, `Self` are identifiers, not reserved words. -/
theorem to_token_identifier_classification (w : List Nat) (interner : SymbolInterner)
    (hshape : identShape w = true) (hres : w ∉ reservedWords) :
    Word.to_token w interner =
      some (TokenKind.Identifier (SymbolInterner.get_or_intern interner (wordText w)).1,
            (SymbolInterner.get_or_intern interner (wordText w)).2) := by
  rw [to_token_not_reserved w interner hres,
    utf8Decode_ascii w (identShape_ascii w hshape)]
  rfl

theorem to_token_identifier_classification_witness :
    Word.to_token (strBytes "and1") [] =
      some (TokenKind.Identifier
              (SymbolInterner.get_or_intern [] (wordText (strBytes "and1"))).1,
            (SymbolInterner.get_or_intern [] (wordText (strBytes "and1"))).2)
  ∧ Word.to_token (strBytes "End") [] =
      some (TokenKind.Identifier
              (SymbolInterner.get_or_intern [] (wordText (strBytes "End"))).1,
            (SymbolInterner.get_or_intern [] (wordText (strBytes "End"))).2) :=
  ⟨to_token_identifier_classification (strBytes "and1") [] (by decide) (by decide),
   to_token_identifier_classification (strBytes "End") [] (by decide) (by decide)⟩

/-! ## Claim C4 -/

/-- Claim C4: on a byte slice all of whose bytes satisfy the
word-continuation predicate, UTF-8 decoding succeeds (every such byte is
ASCII), so the `expect` on the identifier path of `to_token` never fires:
`to_token` always produces a token under that precondition. -/
theorem word_run_utf8_safe (w : List Nat) (interner : SymbolInterner)
    (h : w.all is_word = true) :
    utf8Decode? w = some (w.map Char.ofNat)
  ∧ (Word.to_token w interner).isSome = true := by
  have hlt : ∀ b ∈ w, b < 128 := fun b hb =>
    is_word_lt_128 b (by simpa using List.all_eq_true.mp h b hb)
  refine ⟨utf8Decode_ascii w hlt, ?_⟩
  by_cases hres : w ∈ reservedWords
  · obtain ⟨tk, htk⟩ := to_token_reserved_cases w hres
    rw [htk interner]
    rfl
  · rw [to_token_not_reserved w interner hres, utf8Decode_ascii w hlt]
    rfl

theorem word_run_utf8_safe_witness :
    utf8Decode? (strBytes "x1_") = some ((strBytes "x1_").map Char.ofNat)
  ∧ (Word.to_token (strBytes "x1_") []).isSome = true :=
  word_run_utf8_safe (strBytes "x1_") [] (by decide)

/-! ## Claim C5 -/

/-- Claim C5: classifying the same byte slice twice yields the same result:
if `to_token` on `w` in interner state `interner` yields kind `tk` and state
`interner1`, then `to_token` on `w` in state `interner1` yields the same
kind `tk` (for identifiers, the same handle) and leaves `interner1`
unchanged. -/
theorem to_token_idempotent (w : List Nat) (interner interner1 : SymbolInterner)
    (tk : TokenKind) (h : Word.to_token w interner = some (tk, interner1)) :
    Word.to_token w interner1 = some (tk, interner1) := by
  by_cases hres : w ∈ reservedWords
  · obtain ⟨tk2, htk⟩ := to_token_reserved_cases w hres
    rw [htk interner] at h
    simp only [Option.some.injEq, Prod.mk.injEq] at h
    obtain ⟨rfl, rfl⟩ := h
    exact htk interner
  · rw [to_token_not_reserved w interner hres] at h
    rw [to_token_not_reserved w interner1 hres]
    rcases hd : utf8Decode? w with _ | chars
    · rw [hd] at h
      exact Option.noConfusion h
    · simp only [hd, Option.some.injEq, Prod.mk.injEq] at h ⊢
      obtain ⟨rfl, rfl⟩ := h
      rw [get_or_intern_stable]
      exact ⟨rfl, rfl⟩

theorem to_token_idempotent_witness :
    Word.to_token (strBytes "foo") ["foo"] = some (TokenKind.Identifier 0, ["foo"]) :=
  to_token_idempotent (strBytes "foo") [] ["foo"] (TokenKind.Identifier 0) (by decide)

/-! ## Visit lemmas -/

theorem visit_peek_word (self : Word) (cursor : Cursor) (interner : SymbolInterner)
    (c : Nat) (hc : cursor.peek = some c) (hw : is_word c = true) :
    Word.visit self cursor interner =
      some (Transition.step (State.word self), interner) := by
  unfold Word.visit
  rw [hc]
  simp [hw]

theorem visit_peek_boundary (self : Word) (cursor : Cursor) (interner : SymbolInterner)
    (hc : cursor.peek = none ∨ ∃ c, cursor.peek = some c ∧ is_word c = false) :
    Word.visit self cursor interner =
      (Word.to_token (wordSlice self cursor) interner).map
        (fun p => (Transition.resume_produce State.root
          { token := p.1, pos := self.pos }, p.2)) := by
  unfold Word.visit
  rcases hc with hn | ⟨c, hs, hw⟩
  · rw [hn]
    rcases htt : Word.to_token (wordSlice self cursor) interner with _ | ⟨tk, i2⟩ <;>
      simp [htt]
  · rw [hs]
    rcases htt : Word.to_token (wordSlice self cursor) interner with _ | ⟨tk, i2⟩ <;>
      simp [hw, htt]

/-! ## Claim C2 -/

/-- Claim C2: `Word::visit` returns `Step(self)` iff the byte at the cursor
exists and is a word-continuation byte; otherwise (end-of-input or any other
byte) it returns `Resume(Root, token)` where the token's kind classifies the
buffer slice from `start_offset` to the current offset and the token's
position is the one captured at entry.  The boundary byte is not consumed:
the transition is `resume_produce`, which by the transition protocol leaves
the current byte for `Root` (the cursor is untouched by `visit`). -/
theorem word_visit_step_iff_resume (self : Word) (cursor : Cursor)
    (interner : SymbolInterner) :
    (Word.visit self cursor interner =
        some (Transition.step (State.word self), interner)
      ↔ ∃ c, cursor.peek = some c ∧ is_word c = true)
  ∧ ((cursor.peek = none ∨ ∃ c, cursor.peek = some c ∧ is_word c = false) →
      Word.visit self cursor interner =
        (Word.to_token (wordSlice self cursor) interner).map
          (fun p => (Transition.resume_produce State.root
            { token := p.1, pos := self.pos }, p.2))) := by
  constructor
  · constructor
    · intro hv
      by_contra hn
      have hb : cursor.peek = none ∨ ∃ c, cursor.peek = some c ∧ is_word c = false := by
        rcases hpk : cursor.peek with _ | c
        · exact Or.inl rfl
        · refine Or.inr ⟨c, rfl, ?_⟩
          by_contra hcc
          exact hn ⟨c, hpk, by simpa using hcc⟩
      rw [visit_peek_boundary self cursor interner hb] at hv
      rcases htt : Word.to_token (wordSlice self cursor) interner with _ | ⟨tk, i2⟩
      · rw [htt] at hv
        exact Option.noConfusion hv
      · rw [htt] at hv
        exact Transition.noConfusion (congrArg Prod.fst (Option.some.inj hv))
    · rintro ⟨c, hc, hw⟩
      exact visit_peek_word self cursor interner c hc hw
  · exact visit_peek_boundary self cursor interner

theorem word_visit_step_iff_resume_witness :
    Word.visit { start_offset := 0, pos := { line := 1, column := 1 } }
        { buffer := strBytes "ab", offset := 1, curPos := { line := 1, column := 2 } } [] =
      some (Transition.step
        (State.word { start_offset := 0, pos := { line := 1, column := 1 } }), [])
  ∧ Word.visit { start_offset := 0, pos := { line := 1, column := 1 } }
        { buffer := strBytes "if)", offset := 2, curPos := { line := 1, column := 3 } } [] =
      (Word.to_token (wordSlice { start_offset := 0, pos := { line := 1, column := 1 } }
            { buffer := strBytes "if)", offset := 2,
              curPos := { line := 1, column := 3 } }) []).map
        (fun p => (Transition.resume_produce State.root
          { token := p.1, pos := { line := 1, column := 1 } }, p.2)) :=
  ⟨(word_visit_step_iff_resume _ _ _).1.mpr ⟨98, by decide, by decide⟩,
   (word_visit_step_iff_resume _ _ _).2 (Or.inr ⟨41, by decide, by decide⟩)⟩

/-! ## Claim C9 -/

/-- Claim C9: `Word::at` captures `start_offset = cursor.offset()` and
`pos = cursor.pos()` at entry; every `Step` transition returns the very same
state (both fields unchanged); and any token `visit` produces carries
exactly the captured position `self.pos`. -/
theorem word_at_capture_frame (cursor : Cursor) (self : Word) (cursor2 : Cursor)
    (interner : SymbolInterner) :
    ((Word.at' cursor).start_offset = cursor.offset
      ∧ (Word.at' cursor).pos = cursor.pos)
  ∧ (∀ c, cursor2.peek = some c → is_word c = true →
      Word.visit self cursor2 interner =
        some (Transition.step (State.word self), interner))
  ∧ (∀ tr i2 st tok, Word.visit self cursor2 interner = some (tr, i2) →
      tr = Transition.resume_produce st tok → tok.pos = self.pos) := by
  refine ⟨⟨rfl, rfl⟩,
    fun c hc hw => visit_peek_word self cursor2 interner c hc hw, ?_⟩
  intro tr i2 st tok hv htr
  subst htr
  by_cases hstep : ∃ c, cursor2.peek = some c ∧ is_word c = true
  · obtain ⟨c, hc, hw⟩ := hstep
    rw [visit_peek_word self cursor2 interner c hc hw] at hv
    exact Transition.noConfusion (congrArg Prod.fst (Option.some.inj hv))
  · have hb : cursor2.peek = none ∨ ∃ c, cursor2.peek = some c ∧ is_word c = false := by
      rcases hpk : cursor2.peek with _ | c
      · exact Or.inl rfl
      · refine Or.inr ⟨c, rfl, ?_⟩
        by_contra hcc
        exact hstep ⟨c, hpk, by simpa using hcc⟩
    rw [visit_peek_boundary self cursor2 interner hb] at hv
    rcases htt : Word.to_token (wordSlice self cursor2) interner with _ | ⟨tk, i3⟩
    · rw [htt] at hv
      exact Option.noConfusion hv
    · rw [htt] at hv
      injection congrArg Prod.fst (Option.some.inj hv) with hst htok
      rw [← htok]

theorem word_at_capture_frame_witness :
    ((Word.at' { buffer := strBytes "self", offset := 0, curPos := { line := 2, column := 5 } }).start_offset =
        ({ buffer := strBytes "self", offset := 0, curPos := { line := 2, column := 5 } } : Cursor).offset
      ∧ (Word.at' { buffer := strBytes "self", offset := 0, curPos := { line := 2, column := 5 } }).pos =
        ({ buffer := strBytes "self", offset := 0, curPos := { line := 2, column := 5 } } : Cursor).pos)
  ∧ Word.visit { start_offset := 0, pos := { line := 2, column := 5 } }
        { buffer := strBytes "self", offset := 1, curPos := { line := 2, column := 6 } } [] =
      some (Transition.step (State.word { start_offset := 0, pos := { line := 2, column := 5 } }), [])
  ∧ ({ token := TokenKind.Keyword Keyword.Self_, pos := { line := 2, column := 5 } } : Token).pos =
      ({ start_offset := 0, pos := { line := 2, column := 5 } } : Word).pos :=
  ⟨(word_at_capture_frame
      { buffer := strBytes "self", offset := 0, curPos := { line := 2, column := 5 } }
      { start_offset := 0, pos := { line := 2, column := 5 } }
      { buffer := strBytes "self", offset := 1, curPos := { line := 2, column := 6 } } []).1,
   (word_at_capture_frame
      { buffer := strBytes "self", offset := 0, curPos := { line := 2, column := 5 } }
      { start_offset := 0, pos := { line := 2, column := 5 } }
      { buffer := strBytes "self", offset := 1, curPos := { line := 2, column := 6 } } []).2.1
        101 (by decide) (by decide),
   (word_at_capture_frame
      { buffer := strBytes "self", offset := 0, curPos := { line := 2, column := 5 } }
      { start_offset := 0, pos := { line := 2, column := 5 } }
      { buffer := strBytes "self", offset := 4, curPos := { line := 2, column := 9 } } []).2.2
     (Transition.resume_produce State.root
       { token := TokenKind.Keyword Keyword.Self_, pos := { line := 2, column := 5 } })
     [] State.root
     { token := TokenKind.Keyword Keyword.Self_, pos := { line := 2, column := 5 } }
     (by decide) rfl⟩

/-! ## Claim C8 -/

/-- Claim C8: the keyword, literal and word-operator tables are pairwise
disjoint, and `to_token` maps each table's words to the single matching
`TokenKind` variant, so no byte slice is classified as more than one of
keyword, literal or word-operator. -/
theorem reserved_tables_disjoint :
    (∀ w ∈ keywordWords, w ∉ literalWords ∧ w ∉ operatorWords)
  ∧ (∀ w ∈ literalWords, w ∉ operatorWords)
  ∧ (∀ w interner, w ∈ keywordWords →
      ∃ k, Word.to_token w interner = some (TokenKind.Keyword k, interner))
  ∧ (∀ w interner, w ∈ literalWords →
      ∃ l, Word.to_token w interner = some (TokenKind.Literal l, interner))
  ∧ (∀ w interner, w ∈ operatorWords →
      ∃ o, Word.to_token w interner = some (TokenKind.Operator o, interner)) := by
  refine ⟨by decide, by decide, ?_, ?_, ?_⟩
  · intro w interner hw
    simp only [keywordWords, List.mem_cons, List.not_mem_nil, or_false] at hw
    rcases hw with rfl | rfl | rfl | rfl | rfl | rfl | rfl | rfl | rfl | rfl | rfl | rfl | rfl <;>
      exact ⟨_, rfl⟩
  · intro w interner hw
    simp only [literalWords, List.mem_cons, List.not_mem_nil, or_false] at hw
    rcases hw with rfl | rfl | rfl <;> exact ⟨_, rfl⟩
  · intro w interner hw
    simp only [operatorWords, List.mem_cons, List.not_mem_nil, or_false] at hw
    rcases hw with rfl | rfl | rfl <;> exact ⟨_, rfl⟩

theorem reserved_tables_disjoint_witness :
    ∃ k, Word.to_token (strBytes "then") [] = some (TokenKind.Keyword k, []) :=
  reserved_tables_disjoint.2.2.1 (strBytes "then") [] (by decide)
